import Mathlib

/-!
# Verification of the `prsm` script-manager core

Shallow embedding of `src/lib.rs` of the `prsm` crate (a deferred-action
registry) and proofs about it.

Modelling conventions:
* Rust `usize` keys are modelled as `Nat` (no claim under consideration
  touches integer overflow).
* `Box<dyn PrsmDisplay>` — a type-erased value that can be rendered as
  text — is modelled by the existential package `PDisplay` bundling a
  type, a value of that type, and its `Display` rendering function.
* `Result<(), Box<dyn PrsmDisplay>>` becomes `Except PDisplay Unit`.
* `BTreeMap<usize, Script>` is modelled as a strictly-sorted association
  list `List (Nat × _)`; `BTreeMap` construction from an entry sequence
  (`from_iter`, used by the `prsm!` macro) is `btreeFromList`, a left
  fold of ordered insertion, which — like `BTreeMap` — keeps the
  later-supplied value when two entries share a key.
* A Rust panic (`expect`, or indexing a map at an absent key) is
  modelled as the `none` case of an `Option` result: `none` marks the
  fatal, non-returning outcome, `some r` a normal return of `r`.
* Side effects of user-supplied script computations are modelled by
  explicit state passing (`ScriptM`): a computation is a function
  `σ → σ × Except ε α` on an external state `σ`.
-/

/-- Model of `Box<dyn PrsmDisplay>` from `lib.rs`: a value of an arbitrary
type together with its textual (`Display`) rendering function; the concrete
type is erased by packaging. -/
structure PDisplay : Type 1 where
  carrier : Type
  val : carrier
  disp : carrier → String

/-- `format!("\x7b\x7d", e)` on the boxed value: render the erased value with
its packaged `Display` function. -/
def PDisplay.render (d : PDisplay) : String :=
  d.disp d.val

/-- `pub type ScriptResult = Result<(), Box<dyn PrsmDisplay>>;` -/
def ScriptResult : Type 1 :=
  Except PDisplay Unit

/-- `pub struct Script { description, func }` from `lib.rs`: a description
and the boxed zero-argument deferred computation. -/
structure Script : Type 1 where
  description : String
  func : Unit → ScriptResult

/-- `Script::new`: stores the description and the boxed closure, calling
nothing. -/
def Script.new (description : String) (func : Unit → ScriptResult) : Script :=
  ⟨description, func⟩

/-- `Script::run`: applies the stored closure. -/
def Script.run (s : Script) : ScriptResult :=
  s.func ()

/-- The `prsm_script!` macro: wraps a deferred computation `f` (returning
`Result<α, ε>`, whose error type has a `Display` rendering `disp`) as
`Script::new(desc, Box::new(move || f.map(|_| ()).map_err(|e| Box::new(e) as Box<dyn PrsmDisplay>)))`. -/
def prsm_script {ε α : Type} (desc : String) (f : Unit → Except ε α)
    (disp : ε → String) : Script :=
  Script.new desc (fun u =>
    Except.mapError (fun e => PDisplay.mk ε e disp)
      (Except.map (fun _ => ()) (f u)))

/-- C1: an Action whose wrapped computation returns a failure value `e`
yields, via `Script::run`, a failure whose textual rendering equals the
textual rendering of `e`. -/
theorem prsm_script_error_render {ε α : Type} (desc : String) (disp : ε → String)
    (f : Unit → Except ε α) (e : ε) (h : f () = Except.error e) :
    ∃ d : PDisplay,
      Script.run (prsm_script desc f disp) = Except.error d ∧ d.render = disp e := by
  refine ⟨PDisplay.mk ε e disp, ?_, rfl⟩
  have hrun : Script.run (prsm_script desc f disp)
      = Except.mapError (fun e => PDisplay.mk ε e disp)
          (Except.map (fun _ => ()) (f ())) := rfl
  rw [hrun, h]
  rfl

/-- C1 witness: the concrete scenario of the spec — a captured value `b = 2`
inside a computation failing with `a + b`, invoked with `a = 5`, yields
failure text `"7"`. -/
theorem prsm_script_error_render_witness :
    ((fun _ => Except.error (5 + 2) : Unit → Except Nat Unit) () = Except.error 7) ∧
    ∃ d : PDisplay,
      Script.run (prsm_script "z"
          (fun _ => Except.error (5 + 2) : Unit → Except Nat Unit) Nat.repr)
        = Except.error d ∧ d.render = "7" := by
  refine ⟨rfl, ?_⟩
  obtain ⟨d, h1, h2⟩ :=
    prsm_script_error_render "z" Nat.repr
      (fun _ => Except.error (5 + 2) : Unit → Except Nat Unit) (5 + 2) rfl
  exact ⟨d, h1, h2.trans (by decide)⟩

/-- C3: an Action whose wrapped computation succeeds with any payload `v`
yields unit success from `Script::run`; the payload is discarded. -/
theorem prsm_script_ok_discards {ε α : Type} (desc : String) (disp : ε → String)
    (f : Unit → Except ε α) (v : α) (h : f () = Except.ok v) :
    Script.run (prsm_script desc f disp) = Except.ok () := by
  have hrun : Script.run (prsm_script desc f disp)
      = Except.mapError (fun e => PDisplay.mk ε e disp)
          (Except.map (fun _ => ()) (f ())) := rfl
  rw [hrun, h]
  rfl

/-- C3 witness: a computation succeeding with the non-unit payload `200`
still yields unit success (the `200` is gone). -/
theorem prsm_script_ok_discards_witness :
    ((fun _ => Except.ok 200 : Unit → Except String Nat) () = Except.ok 200) ∧
    Script.run (prsm_script "t" (fun _ => Except.ok 200 : Unit → Except String Nat)
        (fun s => s))
      = Except.ok () :=
  ⟨rfl, prsm_script_ok_discards "t" (fun s => s) _ 200 rfl⟩

/-- Association-list model of `BTreeMap` lookup (`get` / the `Index`
operator's lookup part). -/
def mapGet {β : Type _} : List (Nat × β) → Nat → Option β
  | [], _ => none
  | p :: t, k => if k = p.1 then some p.2 else mapGet t k

/-- Ordered insertion into the sorted association list: the model of
`BTreeMap::insert`, which replaces the value when the key is already
present. -/
def btreeInsert {β : Type _} : List (Nat × β) → Nat → β → List (Nat × β)
  | [], k, v => [(k, v)]
  | p :: t, k, v =>
    if k < p.1 then (k, v) :: p :: t
    else if k = p.1 then (k, v) :: t
    else p :: btreeInsert t k v

/-- `BTreeMap` built from an entry sequence (`collect::<BTreeMap<_, _>>()`
as used by the `prsm!` macro): insert the entries left to right, so a
later entry with a duplicate key overwrites the earlier one. -/
def btreeFromList {β : Type _} (l : List (Nat × β)) : List (Nat × β) :=
  l.foldl (fun m p => btreeInsert m p.1 p.2) []

/-- `pub struct ScriptManager { name, scripts }` from `lib.rs`. -/
structure ScriptManager : Type 1 where
  name : String
  scripts : List (Nat × Script)

/-- `ScriptManager::new`: an optional name (defaulting to
`"ScriptManager"`) and the script map. -/
def ScriptManager.new (name : Option String) (scripts : List (Nat × Script)) :
    ScriptManager :=
  ⟨match name with
    | some n => n
    | none => "ScriptManager",
   scripts⟩

/-- The `prsm!` macro: build the `BTreeMap` from the listed
`(key, script)` entries and pass it to `ScriptManager::new`. -/
def prsm (name : Option String) (entries : List (Nat × Script)) : ScriptManager :=
  ScriptManager.new name (btreeFromList entries)

/-- The header line of `Display for ScriptManager`:
`format!("========== \x7b\x7d ==========", self.name)`. -/
def headerOf (name : String) : String :=
  "========== " ++ name ++ " =========="

/-- The footer line: `"=".repeat(header.len())`, i.e. as many `=`
characters as the header has UTF-8 bytes. -/
def footerOf (header : String) : String :=
  String.mk (List.replicate header.utf8ByteSize (Char.ofNat 61))

/-- One menu entry line: `writeln!(f, "[\x7b\x7d] \x7b\x7d", idx, script.description)`. -/
def entryLine (p : Nat × Script) : String :=
  "[" ++ Nat.repr p.1 ++ "] " ++ p.2.description

/-- The lines written by `Display for ScriptManager`, in order: the
header, one line per map entry in map (ascending-key) order, the footer. -/
def renderLines (sm : ScriptManager) : List String :=
  headerOf sm.name :: sm.scripts.map entryLine ++ [footerOf (headerOf sm.name)]

/-- The full rendered text of `Display for ScriptManager` (`writeln!` after
the header and each entry, plain `write!` for the footer). -/
def render (sm : ScriptManager) : String :=
  String.intercalate "\n" (renderLines sm)

/-- `ScriptManager::run_script` (and the tail of `ScriptManager::run`):
index the map — a panic, modelled `none`, when the key is absent — then
run the script and turn a failure into its rendered string. -/
def ScriptManager.runScript (sm : ScriptManager) (idx : Nat) :
    Option (Except String Unit) :=
  match mapGet sm.scripts idx with
  | none => none
  | some s => some (Except.mapError PDisplay.render (Script.run s))

/-- `str::trim`: drop whitespace from both ends (computed on the
character list so the definition evaluates). -/
def rustTrim (s : String) : String :=
  String.mk (((s.data.dropWhile Char.isWhitespace).reverse.dropWhile
    Char.isWhitespace).reverse)

/-- `str::parse::<usize>`: an optional leading `+`, then at least one
ASCII digit, else failure (computed on the character list so the
definition evaluates). -/
def parseUsize (s : String) : Option Nat :=
  let t := match s.data with
    | c :: rest => if c = '+' then rest else c :: rest
    | [] => []
  if t.isEmpty then none
  else if t.all Char.isDigit then
    some (t.foldl (fun n c => n * 10 + (c.toNat - 48)) 0)
  else none

/-- `ScriptManager::run` on one line of operator input: trim and parse the
line — `.expect("user gave valid input")`, a panic (`none`) on parse
failure — then index and run the chosen script (`run` also prints the
menu and the prompt; the text it prints is `render`). -/
def ScriptManager.run (sm : ScriptManager) (input : String) :
    Option (Except String Unit) :=
  match parseUsize (rustTrim input) with
  | none => none
  | some k => sm.runScript k

/-- A concrete always-succeeding script, used as sample data. -/
def exScriptOk : Script :=
  Script.new "d" (fun _ => Except.ok ())

/-- A concrete failing script (`z(0)` with `z(a) = Err(a + 3)` from the
crate's tests), wrapped through `prsm_script`. -/
def exScriptErr : Script :=
  prsm_script "z" (fun _ => Except.error (0 + 3) : Unit → Except Nat Unit) Nat.repr

/-- A concrete two-entry manager, used as sample data. -/
def exManager : ScriptManager :=
  ScriptManager.new none (btreeFromList [(1, exScriptOk), (3, exScriptErr)])

/-- Looking up the key just inserted finds the value just inserted. -/
theorem mapGet_btreeInsert_self {β : Type _} (m : List (Nat × β)) (k : Nat) (v : β) :
    mapGet (btreeInsert m k v) k = some v := by
  induction m with
  | nil => simp [btreeInsert, mapGet]
  | cons p t ih =>
    by_cases h1 : k < p.1
    · simp [btreeInsert, h1, mapGet]
    · by_cases h2 : k = p.1
      · simp [btreeInsert, h1, h2, mapGet]
      · simp [btreeInsert, h1, h2, mapGet, ih]

/-- Building the map from one more entry at the end is inserting it into
the map built from the earlier entries. -/
theorem btreeFromList_append_single {β : Type _} (l : List (Nat × β)) (k : Nat) (v : β) :
    btreeFromList (l ++ [(k, v)]) = btreeInsert (btreeFromList l) k v := by
  simp [btreeFromList, List.foldl_append]

/-- C6: duplicate keys at construction are not rejected: the `BTreeMap`
silently keeps exactly the later-supplied entry.  First conjunct: the
two-entry duplicate construction yields the single later entry.  Second
conjunct: in general, the last entry supplied for a key is the one found
in the constructed Registry. -/
theorem prsm_duplicate_key_last_wins (nm : Option String) (k : Nat) (s1 s2 : Script)
    (l : List (Nat × Script)) (s : Script) :
    (ScriptManager.new nm (btreeFromList [(k, s1), (k, s2)])).scripts = [(k, s2)]
    ∧ mapGet (btreeFromList (l ++ [(k, s)])) k = some s := by
  constructor
  · show btreeFromList [(k, s1), (k, s2)] = [(k, s2)]
    simp [btreeFromList, btreeInsert, lt_irrefl]
  · rw [btreeFromList_append_single]
    exact mapGet_btreeInsert_self _ _ _

/-- C4: indexing the map at an absent key is fatal (a panic, not a
returned error value); when the key is present the fatal branch is
unreachable; and the full driver loop `ScriptManager::run` hits the same
fatal branch when the parsed key is absent. -/
theorem scriptManager_unknown_key_fatal (sm : ScriptManager) (k : Nat) (input : String) :
    (mapGet sm.scripts k = none → sm.runScript k = none)
    ∧ (∀ s, mapGet sm.scripts k = some s → sm.runScript k ≠ none)
    ∧ (parseUsize (rustTrim input) = some k → mapGet sm.scripts k = none →
        sm.run input = none) := by
  refine ⟨fun h => ?_, fun s h => ?_, fun hp h => ?_⟩
  · simp [ScriptManager.runScript, h]
  · simp [ScriptManager.runScript, h]
  · simp [ScriptManager.run, hp, ScriptManager.runScript, h]

/-- C4 witness: on the concrete two-entry manager (keys 1 and 3), key 2 is
fatal, key 1 is not, and driver input `"2"` is fatal. -/
theorem scriptManager_unknown_key_fatal_witness :
    exManager.runScript 2 = none
    ∧ exManager.runScript 1 ≠ none
    ∧ ScriptManager.run exManager "2" = none :=
  ⟨(scriptManager_unknown_key_fatal exManager 2 "2").1 rfl,
   (scriptManager_unknown_key_fatal exManager 1 "2").2.1 exScriptOk rfl,
   (scriptManager_unknown_key_fatal exManager 2 "2").2.2 (by decide) rfl⟩

/-- C5: invocation of a present key returns the Action's outcome with
content unchanged: the result is exactly the script's own result with a
failure reduced to the single rendered string; success passes through as
success, and a failure is surfaced as its `Display` rendering. -/
theorem scriptManager_present_key_outcome (sm : ScriptManager) (k : Nat) (s : Script)
    (h : mapGet sm.scripts k = some s) :
    sm.runScript k = some (Except.mapError PDisplay.render (Script.run s))
    ∧ (Script.run s = Except.ok () → sm.runScript k = some (Except.ok ()))
    ∧ (∀ d, Script.run s = Except.error d →
        sm.runScript k = some (Except.error d.render)) := by
  refine ⟨?_, fun hok => ?_, fun d herr => ?_⟩
  · simp [ScriptManager.runScript, h]
  · simp [ScriptManager.runScript, h, hok, Except.mapError]
  · simp [ScriptManager.runScript, h, herr, Except.mapError]

/-- C5 witness: on the concrete manager, the succeeding script at key 1
yields success unchanged and the failing script at key 3 yields exactly
the failure text `"3"`. -/
theorem scriptManager_present_key_outcome_witness :
    exManager.runScript 1 = some (Except.ok ())
    ∧ exManager.runScript 3 = some (Except.error "3") := by
  constructor
  · exact (scriptManager_present_key_outcome exManager 1 exScriptOk rfl).2.1 rfl
  · have h := (scriptManager_present_key_outcome exManager 3 exScriptErr rfl).1
    rw [h]
    rfl

/-- C9: the library's own driver loop `ScriptManager::run` panics — it
does not return an error value — whenever the trimmed operator input does
not parse as an unsigned integer. -/
theorem scriptManager_run_malformed_input_fatal (sm : ScriptManager) (input : String)
    (h : parseUsize (rustTrim input) = none) :
    sm.run input = none := by
  simp [ScriptManager.run, h]

/-- C9 witness: empty input, a negative number, and non-numeric text are
all fatal to the driver loop of the concrete manager. -/
theorem scriptManager_run_malformed_input_fatal_witness :
    ScriptManager.run exManager "" = none
    ∧ ScriptManager.run exManager " -1 " = none
    ∧ ScriptManager.run exManager "abc" = none :=
  ⟨scriptManager_run_malformed_input_fatal exManager "" (by decide),
   scriptManager_run_malformed_input_fatal exManager " -1 " (by decide),
   scriptManager_run_malformed_input_fatal exManager "abc" (by decide)⟩

/-- The keys of an association list, in list order. -/
def keysOf {β : Type _} (m : List (Nat × β)) : List Nat :=
  m.map Prod.fst

/-- A key is in the map after insertion exactly when it is the inserted
key or was there already. -/
theorem mem_keys_btreeInsert {β : Type _} (m : List (Nat × β)) (k a : Nat) (v : β) :
    a ∈ keysOf (btreeInsert m k v) ↔ a = k ∨ a ∈ keysOf m := by
  induction m with
  | nil => simp [btreeInsert, keysOf]
  | cons p t ih =>
    rcases lt_trichotomy k p.1 with h1 | h1 | h1
    · rw [show btreeInsert (p :: t) k v = (k, v) :: p :: t from by
        simp [btreeInsert, h1]]
      simp only [keysOf, List.map_cons, List.mem_cons]
    · subst h1
      rw [show btreeInsert (p :: t) p.1 v = (p.1, v) :: t from by
        simp [btreeInsert, lt_irrefl]]
      simp only [keysOf, List.map_cons, List.mem_cons]
      tauto
    · have hnlt : ¬ k < p.1 := Nat.lt_asymm h1
      have hne : k ≠ p.1 := ne_of_gt h1
      rw [show btreeInsert (p :: t) k v = p :: btreeInsert t k v from by
        simp [btreeInsert, hnlt, hne]]
      simp only [keysOf, List.map_cons, List.mem_cons] at ih ⊢
      tauto

/-- The strict-ascending-keys invariant of the `BTreeMap` model. -/
def SortedKeys {β : Type _} (m : List (Nat × β)) : Prop :=
  List.Pairwise (fun p q => p.1 < q.1) m

/-- Ordered insertion preserves the strict-ascending-keys invariant. -/
theorem sortedKeys_btreeInsert {β : Type _} (k : Nat) (v : β) :
    ∀ m : List (Nat × β), SortedKeys m → SortedKeys (btreeInsert m k v) := by
  intro m
  induction m with
  | nil =>
    intro _
    simp [btreeInsert, SortedKeys]
  | cons p t ih =>
    intro h
    rw [SortedKeys, List.pairwise_cons] at h
    obtain ⟨hp, ht⟩ := h
    by_cases h1 : k < p.1
    · rw [SortedKeys]
      simp only [btreeInsert, if_pos h1]
      refine List.Pairwise.cons ?_ (List.Pairwise.cons hp ht)
      intro q hq
      rcases List.mem_cons.mp hq with rfl | hq
      · exact h1
      · exact lt_trans h1 (hp q hq)
    · by_cases h2 : k = p.1
      · rw [SortedKeys]
        simp only [btreeInsert, if_neg h1, if_pos h2]
        exact List.Pairwise.cons (fun q hq => h2 ▸ hp q hq) ht
      · have hlt : p.1 < k := lt_of_le_of_ne (le_of_not_lt h1) (fun hh => h2 hh.symm)
        rw [SortedKeys]
        simp only [btreeInsert, if_neg h1, if_neg h2]
        refine List.Pairwise.cons ?_ (ih ht)
        intro q hq
        have hk : q.1 ∈ keysOf (btreeInsert t k v) :=
          List.mem_map_of_mem Prod.fst hq
        rcases (mem_keys_btreeInsert t k q.1 v).mp hk with hqk | hqt
        · rw [hqk]
          exact hlt
        · obtain ⟨q', hq', hq'1⟩ := List.mem_map.mp hqt
        
          exact hq'1 ▸ hp q' hq'

/-- The constructed `BTreeMap` satisfies the strict-ascending-keys
invariant, whatever the entry sequence. -/
theorem sortedKeys_btreeFromList {β : Type _} (l : List (Nat × β)) :
    SortedKeys (btreeFromList l) := by
  suffices h : ∀ acc : List (Nat × β), SortedKeys acc →
      SortedKeys (l.foldl (fun m p => btreeInsert m p.1 p.2) acc) by
    exact h [] (by simp [SortedKeys])
  induction l with
  | nil =>
    intro acc hacc
    simpa using hacc
  | cons p t ih =>
    intro acc hacc
    rw [List.foldl_cons]
    exact ih _ (sortedKeys_btreeInsert p.1 p.2 acc hacc)

/-- The constructed `BTreeMap` has exactly the keys of the entry
sequence. -/
theorem mem_keys_btreeFromList {β : Type _} (l : List (Nat × β)) (a : Nat) :
    a ∈ keysOf (btreeFromList l) ↔ a ∈ keysOf l := by
  suffices h : ∀ acc : List (Nat × β),
      (a ∈ keysOf (l.foldl (fun m p => btreeInsert m p.1 p.2) acc)
        ↔ a ∈ keysOf acc ∨ a ∈ keysOf l) by
    have h0 := h []
    simpa [keysOf] using h0
  induction l with
  | nil =>
    intro acc
    simp [keysOf]
  | cons p t ih =>
    intro acc
    rw [List.foldl_cons]
    rw [ih (btreeInsert acc p.1 p.2)]
    rw [mem_keys_btreeInsert]
    simp only [keysOf, List.map_cons, List.mem_cons]
    tauto

/-- An ASCII character occupies one UTF-8 byte. -/
theorem utf8Size_one_of_ascii (c : Char) (h : c.toNat < 128) : c.utf8Size = 1 := by
  have hv : c.val ≤ 0x7F := by
    rw [UInt32.le_def, BitVec.le_def]
    exact Nat.le_of_lt_succ h
  simp [Char.utf8Size, hv]

/-- The UTF-8 byte length of an all-ASCII character list is its length. -/
theorem utf8Len_eq_length_of_ascii (cs : List Char) (h : ∀ c ∈ cs, c.toNat < 128) :
    String.utf8Len cs = cs.length := by
  induction cs with
  | nil => simp
  | cons c t ih =>
    rw [String.utf8Len_cons, utf8Size_one_of_ascii c (h c (by simp)),
      ih (fun d hd => h d (by simp [hd]))]
    simp

/-- `utf8ByteSize` computed through the character list. -/
theorem utf8ByteSize_eq_utf8Len (s : String) :
    s.utf8ByteSize = String.utf8Len s.data := by
  cases s
  rfl

/-- For an all-ASCII string the byte width and the character width
coincide. -/
theorem utf8ByteSize_eq_length_of_ascii (s : String) (h : ∀ c ∈ s.data, c.toNat < 128) :
    s.utf8ByteSize = s.length := by
  rw [utf8ByteSize_eq_utf8Len, utf8Len_eq_length_of_ascii s.data h]
  cases s
  rfl

/-- The footer has exactly as many characters as the header has UTF-8
bytes. -/
theorem footerOf_length (h : String) : (footerOf h).length = h.utf8ByteSize := by
  show (List.replicate h.utf8ByteSize (Char.ofNat 61)).length = h.utf8ByteSize
  simp

/-- The header of an all-ASCII name is all ASCII. -/
theorem headerOf_ascii (n : String) (h : ∀ c ∈ n.data, c.toNat < 128) :
    ∀ c ∈ (headerOf n).data, c.toNat < 128 := by
  intro c hc
  rw [headerOf] at hc
  simp only [String.data_append, List.mem_append] at hc
  rcases hc with (hc | hc) | hc
  · exact (by decide : ∀ c ∈ "========== ".data, c.toNat < 128) c hc
  · exact h c hc
  · exact (by decide : ∀ c ∈ " ==========".data, c.toNat < 128) c hc

/-- C2 (amended): for a Registry built from a non-empty entry sequence
with distinct keys, the rendered text is a header line containing the
name, one line per entry formatted `[key] description`, with every key
of the sequence appearing exactly once in strictly ascending order, and
a footer line whose character count equals the header line's UTF-8 BYTE
width — which coincides with the header's character width whenever the
name is ASCII.  (The claim's unqualified character-width equality fails
for non-ASCII names, see the counterexample.) -/
theorem scriptManager_render_spec (nm : Option String) (l : List (Nat × Script))
    (hne : l ≠ []) (hnd : (keysOf l).Nodup) :
    renderLines (ScriptManager.new nm (btreeFromList l))
      = headerOf (ScriptManager.new nm (btreeFromList l)).name
          :: (btreeFromList l).map entryLine
          ++ [footerOf (headerOf (ScriptManager.new nm (btreeFromList l)).name)]
    ∧ (∀ p : Nat × Script, p ∈ btreeFromList l →
        entryLine p = "[" ++ Nat.repr p.1 ++ "] " ++ p.2.description)
    ∧ (∀ a, a ∈ keysOf (btreeFromList l) ↔ a ∈ keysOf l)
    ∧ List.Pairwise (fun a b => a < b) (keysOf (btreeFromList l))
    ∧ (∀ a ∈ keysOf l, (keysOf (btreeFromList l)).count a = 1)
    ∧ btreeFromList l ≠ []
    ∧ (footerOf (headerOf (ScriptManager.new nm (btreeFromList l)).name)).length
        = (headerOf (ScriptManager.new nm (btreeFromList l)).name).utf8ByteSize
    ∧ ((∀ c ∈ (ScriptManager.new nm (btreeFromList l)).name.data, c.toNat < 128) →
        (footerOf (headerOf (ScriptManager.new nm (btreeFromList l)).name)).length
          = (headerOf (ScriptManager.new nm (btreeFromList l)).name).length) := by
  have hsorted : List.Pairwise (fun a b => a < b) (keysOf (btreeFromList l)) := by
    have h := sortedKeys_btreeFromList l
    rw [SortedKeys] at h
    exact List.pairwise_map.mpr h
  have hnodup : (keysOf (btreeFromList l)).Nodup :=
    List.Pairwise.imp (fun h => Nat.ne_of_lt h) hsorted
  refine ⟨rfl, fun p _ => rfl, mem_keys_btreeFromList l, hsorted, ?_, ?_, ?_, ?_⟩
  · intro a ha
    exact List.count_eq_one_of_mem hnodup ((mem_keys_btreeFromList l a).mpr ha)
  · obtain ⟨p, hp⟩ := List.exists_mem_of_ne_nil l hne
    have hk : p.1 ∈ keysOf (btreeFromList l) :=
      (mem_keys_btreeFromList l p.1).mpr (List.mem_map_of_mem Prod.fst hp)
    intro hnil
    rw [hnil] at hk
    simp [keysOf] at hk
  · exact footerOf_length _
  · intro hascii
    rw [footerOf_length _,
      utf8ByteSize_eq_length_of_ascii _ (headerOf_ascii _ hascii)]

/-- C2 witness: the amended statement evaluated on the one-entry
default-named manager. -/
theorem scriptManager_render_spec_witness :
    renderLines (ScriptManager.new none (btreeFromList [(1, exScriptOk)]))
      = headerOf (ScriptManager.new none (btreeFromList [(1, exScriptOk)])).name
          :: (btreeFromList [(1, exScriptOk)]).map entryLine
          ++ [footerOf
              (headerOf (ScriptManager.new none (btreeFromList [(1, exScriptOk)])).name)]
    ∧ (∀ p : Nat × Script, p ∈ btreeFromList [(1, exScriptOk)] →
        entryLine p = "[" ++ Nat.repr p.1 ++ "] " ++ p.2.description)
    ∧ (∀ a, a ∈ keysOf (btreeFromList [(1, exScriptOk)]) ↔ a ∈ keysOf [(1, exScriptOk)])
    ∧ List.Pairwise (fun a b => a < b) (keysOf (btreeFromList [(1, exScriptOk)]))
    ∧ (∀ a ∈ keysOf [(1, exScriptOk)],
        (keysOf (btreeFromList [(1, exScriptOk)])).count a = 1)
    ∧ btreeFromList [(1, exScriptOk)] ≠ []
    ∧ (footerOf
          (headerOf (ScriptManager.new none (btreeFromList [(1, exScriptOk)])).name)).length
        = (headerOf (ScriptManager.new none (btreeFromList [(1, exScriptOk)])).name).utf8ByteSize
    ∧ ((∀ c ∈ (ScriptManager.new none (btreeFromList [(1, exScriptOk)])).name.data,
          c.toNat < 128) →
        (footerOf
            (headerOf (ScriptManager.new none (btreeFromList [(1, exScriptOk)])).name)).length
          = (headerOf (ScriptManager.new none (btreeFromList [(1, exScriptOk)])).name).length) :=
  scriptManager_render_spec none [(1, exScriptOk)] (by simp) (by simp [keysOf])

/-- C2 counterexample: for the Registry named `"é"` (one entry, key 1),
the footer's character width differs from the header's character width —
the header is 23 characters but 24 UTF-8 bytes, so the footer gets 24 `=`
characters.  This refutes the claim's character-width equality as stated. -/
theorem scriptManager_render_width_counterexample :
    ¬ ((footerOf
          (headerOf (ScriptManager.new (some "é") (btreeFromList [(1, exScriptOk)])).name)).length
        = (headerOf
            (ScriptManager.new (some "é") (btreeFromList [(1, exScriptOk)])).name).length) := by
  show ¬ ((footerOf (headerOf "é")).length = (headerOf "é").length)
  decide

/-- Folding insertions of nonzero keys never displaces a `(0, s)` head:
`0` is minimal for `usize`/`Nat`, so every later entry lands behind it. -/
theorem btreeFoldl_head_zero {β : Type _} (s : β) :
    ∀ (l acc : List (Nat × β)), acc.head? = some (0, s) →
      (∀ k ∈ keysOf l, k ≠ 0) →
      (l.foldl (fun m p => btreeInsert m p.1 p.2) acc).head? = some (0, s) := by
  intro l
  induction l with
  | nil =>
    intro acc hacc _
    simpa using hacc
  | cons p t ih =>
    intro acc hacc hl
    rw [List.foldl_cons]
    apply ih
    · match acc, hacc with
      | q :: acc', hacc =>
        have hq : q = (0, s) := by simpa using hacc
        subst hq
        have h0 : p.1 ≠ 0 := hl p.1 (by simp [keysOf])
        have hnlt : ¬ p.1 < 0 := Nat.not_lt_zero p.1
        simp [btreeInsert, hnlt, h0]
    · intro k hk
      exact hl k (by simp [keysOf] at hk ⊢; tauto)

/-- C10: keys are `usize` (here `Nat`) and no positivity check exists
anywhere: a Registry built with key `0` accepts it, lists it first in the
rendering, and invoking key `0` runs its Action like any other key. -/
theorem scriptManager_key_zero_accepted (nm : Option String) (s : Script)
    (rest : List (Nat × Script)) (h : ∀ k ∈ keysOf rest, k ≠ 0) :
    mapGet (btreeFromList ((0, s) :: rest)) 0 = some s
    ∧ ((btreeFromList ((0, s) :: rest)).map entryLine).head?
        = some ("[" ++ Nat.repr 0 ++ "] " ++ s.description)
    ∧ (ScriptManager.new nm (btreeFromList ((0, s) :: rest))).runScript 0
        = some (Except.mapError PDisplay.render (Script.run s)) := by
  have hhead : (btreeFromList ((0, s) :: rest)).head? = some (0, s) := by
    have hstep : btreeFromList ((0, s) :: rest)
        = rest.foldl (fun m p => btreeInsert m p.1 p.2) [(0, s)] := by
      rw [btreeFromList, List.foldl_cons]
      rfl
    rw [hstep]
    exact btreeFoldl_head_zero s rest [(0, s)] rfl h
  match hm : btreeFromList ((0, s) :: rest), hhead with
  | q :: m', hhead =>
    have hq : q = (0, s) := by simpa using hhead
    subst hq
    refine ⟨rfl, rfl, ?_⟩
    show (match mapGet ((0, s) :: m') 0 with
      | none => none
      | some sc => some (Except.mapError PDisplay.render (Script.run sc)))
      = some (Except.mapError PDisplay.render (Script.run s))
    rfl

/-- C10 witness: a concrete Registry with keys `0` and `2`: key `0` is
stored, rendered first, and runs successfully. -/
theorem scriptManager_key_zero_accepted_witness :
    mapGet (btreeFromList ((0, exScriptOk) :: [(2, exScriptErr)])) 0 = some exScriptOk
    ∧ ((btreeFromList ((0, exScriptOk) :: [(2, exScriptErr)])).map entryLine).head?
        = some ("[" ++ Nat.repr 0 ++ "] " ++ exScriptOk.description)
    ∧ (ScriptManager.new none
          (btreeFromList ((0, exScriptOk) :: [(2, exScriptErr)]))).runScript 0
        = some (Except.mapError PDisplay.render (Script.run exScriptOk)) :=
  scriptManager_key_zero_accepted none exScriptOk [(2, exScriptErr)] (by decide)

/-- The state-instrumented variant of `Script`, for reasoning about the
side effects of the wrapped computation: the stored closure both
transforms an external state `σ` and returns a `ScriptResult`. -/
structure ScriptM (σ : Type) : Type 1 where
  description : String
  func : σ → σ × ScriptResult

/-- `Script::run` in the instrumented model: apply the stored closure to
the current external state. -/
def ScriptM.runM {σ : Type} (s : ScriptM σ) (st : σ) : σ × ScriptResult :=
  s.func st

/-- `prsm_script!` in the instrumented model: the wrapped computation
`c` (state transformer returning `Result<α, ε>`) is stored unapplied;
its success payload is discarded and its failure boxed, exactly as in
`prsm_script`. -/
def prsm_scriptM {σ ε α : Type} (desc : String) (c : σ → σ × Except ε α)
    (disp : ε → String) : ScriptM σ :=
  ⟨desc, fun st =>
    ((c st).1,
     Except.mapError (fun e => PDisplay.mk ε e disp)
       (Except.map (fun _ => ()) (c st).2))⟩

/-- Construction of a script as a state transformer itself: `Script::new`
(and the `prsm_script!` macro around it) only allocates the closure, so
the external state passes through untouched. -/
def constructScriptM {σ ε α : Type} (desc : String) (c : σ → σ × Except ε α)
    (disp : ε → String) : σ → σ × ScriptM σ :=
  fun st => (st, prsm_scriptM desc c disp)

/-- The state-instrumented variant of `ScriptManager`. -/
structure ScriptManagerM (σ : Type) : Type 1 where
  name : String
  scripts : List (Nat × ScriptM σ)

/-- `ScriptManager::run_script` in the instrumented model: index the map
(fatal when absent, leaving the state untouched), then run the script on
the current state and render any failure. -/
def runScriptM {σ : Type} (sm : ScriptManagerM σ) (idx : Nat) (st : σ) :
    σ × Option (Except String Unit) :=
  match mapGet sm.scripts idx with
  | none => (st, none)
  | some s =>
    ((ScriptM.runM s st).1,
     some (Except.mapError PDisplay.render (ScriptM.runM s st).2))

/-- C7: constructing an Action performs none of the wrapped computation's
effects and produces none of its result — the external state is returned
unchanged by construction — and the computation is applied, on the
then-current state, only when `run` is invoked.  The pure conjunct:
`Script::new` followed by `Script::run` is exactly one application of the
stored closure. -/
theorem script_construction_deferred {σ ε α : Type} (desc : String)
    (c : σ → σ × Except ε α) (disp : ε → String) (st : σ) :
    (constructScriptM desc c disp st).1 = st
    ∧ (∀ st' : σ,
        ScriptM.runM (constructScriptM desc c disp st).2 st'
          = ((c st').1,
             Except.mapError (fun e => PDisplay.mk ε e disp)
               (Except.map (fun _ => ()) (c st').2)))
    ∧ (∀ f : Unit → ScriptResult, Script.run (Script.new desc f) = f ()) :=
  ⟨rfl, fun _ => rfl, fun _ => rfl⟩

/-- C8: invoking a present key twice re-executes the stored computation
each time: the first invocation applies it to the initial state, the
second applies it afresh to the state the first left behind — no
memoization of the first outcome. -/
theorem runScriptM_no_memoization {σ : Type} (sm : ScriptManagerM σ) (k : Nat)
    (s : ScriptM σ) (st : σ) (h : mapGet sm.scripts k = some s) :
    runScriptM sm k st
      = ((s.func st).1,
         some (Except.mapError PDisplay.render (s.func st).2))
    ∧ runScriptM sm k (s.func st).1
      = ((s.func (s.func st).1).1,
         some (Except.mapError PDisplay.render (s.func (s.func st).1).2)) := by
  constructor <;> simp [runScriptM, h, ScriptM.runM]

/-- A counter script: each execution increments an external `Nat`
counter and succeeds. -/
def counterScriptM : ScriptM Nat :=
  prsm_scriptM "count" (fun n => (n + 1, (Except.ok () : Except Nat Unit))) Nat.repr

/-- A one-entry instrumented manager holding the counter script. -/
def exManagerM : ScriptManagerM Nat :=
  ⟨"ScriptManager", [(1, counterScriptM)]⟩

/-- C8 witness: two invocations of key 1 on the counter manager from
counter value 0 produce two distinct increments: states 1 then 2, one
per invocation. -/
theorem runScriptM_no_memoization_witness :
    runScriptM exManagerM 1 0 = (1, some (Except.ok ()))
    ∧ runScriptM exManagerM 1 1 = (2, some (Except.ok ())) := by
  have h := runScriptM_no_memoization exManagerM 1 counterScriptM 0 rfl
  exact ⟨h.1, h.2⟩
